import Mathlib

/-!
Verification of the persistence layer in `src/txdb.cpp` (taucoin).

The file shallowly embeds the four components the spec describes:
the UTXO store flush (`CCoinsViewDB::BatchWrite` / `GetBestBlock`),
the block-index reconstruction (`CBlockTreeDB::LoadBlockIndexGuts`),
the named flags (`CBlockTreeDB::WriteFlag` / `ReadFlag`), and the
derived balance index (`CBalanceViewDB::ReadDB` / `GetBalance` /
`UpdateBalance`). Hashes, scripts and addresses are opaque values
(`Nat` / `String`); machine integers that the code only copies are
embedded as `Int` / `Nat`; fallible operations return `Option`.
-/

/-! ## Key schema and batch protocol (txdb.cpp lines 20-28, 50-71) -/

/-- A transaction output. `nValue` is a `CAmount` (signed 64-bit in the
source, embedded as `Int`); `scriptPubKey` is opaque (address derivation
is an external pure function). -/
structure CTxOut where
  nValue : Int
  scriptPubKey : Nat
deriving DecidableEq, Repr

/-- Modelled from the spec: a coins record (coins.h is not in the given
source) holds the transaction's output list; a spent output is stored as
a null output. Only the output list matters to the code under proof. -/
structure CCoins where
  vout : List CTxOut
deriving DecidableEq, Repr

/-- Modelled from the spec: `CCoins::IsPruned` — a coins record is pruned
when every output is already spent (stored as a null output, whose
`nValue` is `-1` in the upstream representation). -/
def CCoins.IsPruned (c : CCoins) : Bool :=
  c.vout.all fun o => o.nValue == -1

/-- Modelled from the spec: a coins cache diff entry (coins.h is not in
the given source) wraps a coins record with a dirty flag and a fresh
flag; `BatchWrite` tests only the dirty flag. -/
structure CCoinsCacheEntry where
  coins : CCoins
  dirty : Bool
  fresh : Bool
deriving DecidableEq, Repr

/-- A database key: a one-byte record-family tag with a type-specific
suffix (`make_pair(tag, hash)`), or a bare tag (`DB_BEST_BLOCK`). -/
inductive DBKey where
  | tagged (tag : Char) (suffix : Nat)
  | bare (tag : Char)
deriving DecidableEq, Repr

/-- A value stored in the engine by the UTXO store. -/
inductive DBVal where
  | coinsV (c : CCoins)
  | hashV (h : Nat)
deriving DecidableEq, Repr

/-- One operation of a batch: an upsert or a delete. -/
inductive BatchOp where
  | write (k : DBKey) (v : DBVal)
  | erase (k : DBKey)
deriving DecidableEq, Repr

/-- The in-memory coins diff `CCoinsMap`, in iteration order. -/
def CCoinsMap := List (Nat × CCoinsCacheEntry)

/-- The loop of `CCoinsViewDB::BatchWrite` (txdb.cpp lines 54-65): for
each entry, if dirty, append an erase (pruned) or a write (not pruned)
to the batch; every visited entry is erased from the map. Returns the
accumulated batch and the drained map. -/
def batchWriteLoop : List (Nat × CCoinsCacheEntry) → List BatchOp →
    List BatchOp × List (Nat × CCoinsCacheEntry)
  | [], batch => (batch, [])
  | (txid, e) :: rest, batch =>
    let batch2 :=
      if e.dirty then
        batch ++ [if e.coins.IsPruned then
                    BatchOp.erase (DBKey.tagged 'c' txid)
                  else
                    BatchOp.write (DBKey.tagged 'c' txid) (DBVal.coinsV e.coins)]
      else batch
    batchWriteLoop rest batch2

/-- `CCoinsViewDB::BatchWrite` (txdb.cpp lines 50-71): drain the diff
into a batch, conditionally append the best-block pointer write (skipped
when `hashBlock` is the null hash, i.e. `0`), and commit. `commitOk`
is the outcome `db.WriteBatch` reports; the function returns that
outcome, the batch it submitted, and the drained map. -/
def BatchWrite (mapCoins : List (Nat × CCoinsCacheEntry)) (hashBlock : Nat)
    (commitOk : Bool) : Bool × List BatchOp × List (Nat × CCoinsCacheEntry) :=
  let p := batchWriteLoop mapCoins []
  let batch :=
    if hashBlock ≠ 0 then p.1 ++ [BatchOp.write (DBKey.bare 'B') (DBVal.hashV hashBlock)]
    else p.1
  (commitOk, batch, p.2)

/-- The batch operation a single diff entry contributes: dirty+pruned
entries become deletes, dirty+non-pruned entries become upserts,
non-dirty entries contribute nothing. This follows the spec's wording
and is compared with the loop in the source. -/
def entryOp (p : Nat × CCoinsCacheEntry) : Option BatchOp :=
  if p.2.dirty then
    some (if p.2.coins.IsPruned then
            BatchOp.erase (DBKey.tagged 'c' p.1)
          else
            BatchOp.write (DBKey.tagged 'c' p.1) (DBVal.coinsV p.2.coins))
  else none

/-! ## The underlying ordered key-value engine (its `apply(batch)` part) -/

/-- The engine's key space, as the UTXO store sees it. -/
def Store := DBKey → Option DBVal

/-- The engine before anything was ever written. -/
def emptyStore : Store := fun _ => none

/-- Apply one batch operation: a write upserts, an erase deletes. -/
def applyOp (st : Store) (op : BatchOp) : Store :=
  match op with
  | BatchOp.write k v => fun q => if q = k then some v else st q
  | BatchOp.erase k => fun q => if q = k then none else st q

/-- Atomically apply a whole batch, in order. -/
def applyBatch (ops : List BatchOp) (st : Store) : Store :=
  ops.foldl applyOp st

/-- `CCoinsViewDB::GetBestBlock` (txdb.cpp lines 43-48): read the
`DB_BEST_BLOCK` key; if the read fails, return the zero hash. -/
def GetBestBlock (st : Store) : Nat :=
  match st (DBKey.bare 'B') with
  | some (DBVal.hashV h) => h
  | _ => 0

/-- The engine state after a successful `BatchWrite` commit. -/
def flushStore (mapCoins : List (Nat × CCoinsCacheEntry)) (hashBlock : Nat)
    (st : Store) : Store :=
  applyBatch (BatchWrite mapCoins hashBlock true).2.1 st

/-! ## Block-index reconstruction (txdb.cpp lines 175-219) -/

/-- A persisted block-index record (`CDiskBlockIndex`). `blockHash` is
the block's own hash; in the source `GetBlockHash()` recomputes it from
the header (hashing is an external function, so it is embedded as a
stored field — the record is keyed by exactly this hash). All other
fields are the scalars the load loop copies. -/
structure CDiskBlockIndex where
  blockHash : Nat
  hashPrev : Nat
  nHeight : Int
  nFile : Int
  nDataPos : Nat
  nUndoPos : Nat
  nVersion : Int
  hashMerkleRoot : Nat
  nTime : Nat
  nBits : Nat
  nNonce : Nat
  nStatus : Nat
  nTx : Nat
  baseTarget : Nat
  generationSignature : Nat
  pubKeyOfpackager : Nat
  cumulativeDifficulty : Nat
deriving DecidableEq, Repr

/-- An in-memory block-index node (`CBlockIndex`), arena-modelled: the
previous-link `pprev` stores the hash that identifies the parent node in
the index collection, and `nChainDiff` is the value derived via
`UintToArith256` (a representation conversion, embedded as identity). -/
structure CBlockIndex where
  pprev : Nat
  nHeight : Int
  nFile : Int
  nDataPos : Nat
  nUndoPos : Nat
  nVersion : Int
  hashMerkleRoot : Nat
  nTime : Nat
  nBits : Nat
  nNonce : Nat
  nStatus : Nat
  nTx : Nat
  baseTarget : Nat
  generationSignature : Nat
  pubKeyOfpackager : Nat
  cumulativeDifficulty : Nat
  nChainDiff : Nat
deriving DecidableEq, Repr

/-- A freshly constructed, not-yet-populated placeholder node. -/
def emptyBlockIndex : CBlockIndex :=
  ⟨0, 0, 0, 0, 0, 0, 0, 0, 0, 0, 0, 0, 0, 0, 0, 0, 0⟩

/-- The in-memory block index collection, keyed by block hash. -/
def BlockMap := Nat → Option CBlockIndex

/-- The collection before the load starts. -/
def emptyBlockMap : BlockMap := fun _ => none

/-- Replace the node stored for one hash. -/
def setNode (s : BlockMap) (k : Nat) (v : CBlockIndex) : BlockMap :=
  fun h => if h = k then some v else s h

/-- Modelled from the spec: the idempotent `insertBlockIndex` callback
(`main.cpp`, not in the given source) — look the hash up in the index
collection and create an empty placeholder node on a miss; calling it
twice with the same hash yields the same node. -/
def insertBlockIndex (s : BlockMap) (k : Nat) : BlockMap :=
  if (s k).isSome then s else setNode s k emptyBlockIndex

/-- The node the load loop writes for one decoded record: every scalar
field copied from the record, the previous-link set to the node obtained
for the record's `hashPrev`, and the chain difficulty derived from the
stored cumulative difficulty. -/
def nodeOfDisk (d : CDiskBlockIndex) : CBlockIndex :=
  ⟨d.hashPrev, d.nHeight, d.nFile, d.nDataPos, d.nUndoPos, d.nVersion,
   d.hashMerkleRoot, d.nTime, d.nBits, d.nNonce, d.nStatus, d.nTx,
   d.baseTarget, d.generationSignature, d.pubKeyOfpackager,
   d.cumulativeDifficulty, d.cumulativeDifficulty⟩

/-- One iteration of the load loop body (txdb.cpp lines 188-207): obtain
the node for the record's own hash, obtain the node for its previous
hash, then assign all fields of the former. -/
def loadStep (s : BlockMap) (d : CDiskBlockIndex) : BlockMap :=
  let s1 := insertBlockIndex s d.blockHash
  let s2 := insertBlockIndex s1 d.hashPrev
  setNode s2 d.blockHash (nodeOfDisk d)

/-- What the cursor yields at one position: the decoded key (tag and
hash suffix) and the record, `none` when the stored value fails to
decode. -/
structure CursorEntry where
  keyTag : Char
  keyHash : Nat
  value : Option CDiskBlockIndex
deriving DecidableEq, Repr

/-- `CBlockTreeDB::LoadBlockIndexGuts` (txdb.cpp lines 175-219) over
the sequence of cursor positions: while the cursor is on a key with the
block-index tag, decode the value and run the loop body, returning a
fatal failure the moment a value fails to decode; stop with success on
the first key outside the tag or at end-of-store. -/
def LoadBlockIndexGuts : List CursorEntry → BlockMap → Bool × BlockMap
  | [], s => (true, s)
  | e :: rest, s =>
    if e.keyTag = 'b' then
      match e.value with
      | some d => LoadBlockIndexGuts rest (loadStep s d)
      | none => (false, s)
    else (true, s)

/-- The cursor entry under which a record is persisted: the block-index
tag `'b'`, the record's own hash as the key suffix, and a decodable
value. -/
def recEntry (d : CDiskBlockIndex) : CursorEntry :=
  ⟨'b', d.blockHash, some d⟩

/-- The state after the reconstruction loop has consumed a run of
in-tag, decodable cursor entries. -/
def goodRun (good : List CursorEntry) (s : BlockMap) : BlockMap :=
  good.foldl (fun t e => match e.value with | some d => loadStep t d | none => t) s

/-- A concrete genesis record: hash `1`, previous-hash `0` (the
sentinel no-parent value). -/
def dGenesis : CDiskBlockIndex :=
  ⟨1, 0, 0, 0, 21, 22, 1, 23, 24, 25, 26, 27, 2, 28, 29, 30, 31⟩

/-- A concrete child record: hash `2`, previous-hash `1`. -/
def dChild : CDiskBlockIndex :=
  ⟨2, 1, 1, 1, 41, 42, 1, 43, 44, 45, 46, 47, 3, 48, 49, 50, 51⟩

/-! ## Named flags (txdb.cpp lines 163-173) -/

/-- The flag records of the block tree database, newest first (lookup
takes the first match, so a later write shadows an earlier one, as an
upsert does). -/
def FlagStore := List (String × Char)

/-- Point lookup among the flag records. -/
def lookupFlag : List (String × Char) → String → Option Char
  | [], _ => none
  | (k, ch) :: rest, name => if k = name then some ch else lookupFlag rest name

/-- `CBlockTreeDB::WriteFlag` (txdb.cpp lines 163-165): store the single
byte `'1'` for true, `'0'` for false, under the `DB_FLAG`-tagged name. -/
def WriteFlag (st : List (String × Char)) (name : String) (fValue : Bool) :
    List (String × Char) :=
  (name, if fValue then '1' else '0') :: st

/-- `CBlockTreeDB::ReadFlag` (txdb.cpp lines 167-173): a failed read is
reported as the distinct not-found outcome (`none`); a found byte is
decoded as `ch == '1'`. -/
def ReadFlag (st : List (String × Char)) (name : String) : Option Bool :=
  match lookupFlag st name with
  | none => none
  | some ch => some (ch == '1')

/-! ## Balance index (txdb.cpp lines 240-374) -/

/-- What the balance database holds under one `(address, height)` key:
a decimal-encoded amount (the encoding round-trips exactly, so it is
embedded as the amount itself), or a record whose read reports an
engine fault other than not-found. Absence of an entry is not-found. -/
inductive EngineVal where
  | val (v : Int)
  | fault
deriving DecidableEq, Repr

/-- The persistent balance store, newest record first (lookup takes the
first match, so a later put shadows an earlier one, as an upsert does). -/
def BalDB := List ((String × Int) × EngineVal)

/-- Point lookup among the balance records. -/
def dbLookup : List ((String × Int) × EngineVal) → String × Int → Option EngineVal
  | [], _ => none
  | (k, r) :: rest, q => if k = q then some r else dbLookup rest q

/-- `CBalanceViewDB::ReadDB` (txdb.cpp lines 263-288): read the
`address_height` key; on success parse the decimal amount; on not-found
set the amount to zero and report failure; on any other engine fault log
it (`dbwrapper_private::HandleError` is not in the given source and is
modelled from the spec as logging only) and report failure. The boolean
result is the only thing `GetBalance` consumes, so the read is embedded
as `Option Int`, `none` covering both failure cases. -/
def ReadDB (db : List ((String × Int) × EngineVal)) (addr : String) (h : Int) :
    Option Int :=
  match dbLookup db (addr, h) with
  | some (EngineVal.val v) => some v
  | some EngineVal.fault => none
  | none => none

/-- The in-memory balance cache plus the persistent balance store: the
whole state of `CBalanceViewDB`. The cache is newest entry first, with
first-match lookup. -/
structure BalState where
  cache : List (String × Int)
  db : List ((String × Int) × EngineVal)
deriving DecidableEq, Repr

/-- Point lookup in the balance cache. -/
def lookupCache : List (String × Int) → String → Option Int
  | [], _ => none
  | (k, v) :: rest, addr => if k = addr then some v else lookupCache rest addr

/-- The backward scan of `CBalanceViewDB::GetBalance` (txdb.cpp lines
301-307), probing heights `n, n-1, ..., 0` and returning the first
successfully read amount, or `0` when every probe fails. -/
def scanBal (db : List ((String × Int) × EngineVal)) (addr : String) : Nat → Int
  | 0 =>
    match ReadDB db addr 0 with
    | some v => v
    | none => 0
  | n + 1 =>
    match ReadDB db addr (Int.ofNat (n + 1)) with
    | some v => v
    | none => scanBal db addr n

/-- `CBalanceViewDB::GetBalance` (txdb.cpp lines 295-310): a cache hit
returns immediately whatever the requested height; otherwise scan from
`nHeight` down to `0` inclusive, returning `0` when nothing is found
(in particular when `nHeight` is negative the loop body never runs). -/
def GetBalance (st : BalState) (addr : String) (nHeight : Int) : Int :=
  match lookupCache st.cache addr with
  | some v => v
  | none => if nHeight < 0 then 0 else scanBal st.db addr nHeight.toNat

/-- `CBalanceViewDB::ClearCache` (txdb.cpp lines 290-293). -/
def ClearCache (st : BalState) : BalState :=
  { st with cache := [] }

/-- The cache update both loops of `UpdateBalance` perform: insert on a
miss, assign on a hit — either way the address now maps to `v`. -/
def setCache (addr : String) (v : Int) (st : BalState) : BalState :=
  { st with cache := (addr, v) :: st.cache }

/-- The effect of a successful `CBalanceViewDB::WriteDB` (txdb.cpp lines
240-261): upsert the amount under the `(address, height)` key. -/
def writeDB (addr : String) (h : Int) (v : Int) (st : BalState) : BalState :=
  { st with db := ((addr, h), EngineVal.val v) :: st.db }

/-- A transaction input: the out-point it spends (transaction id and
output index). -/
structure COutPoint where
  hash : Nat
  n : Nat
deriving DecidableEq, Repr

/-- A transaction input. -/
structure CTxIn where
  prevout : COutPoint
deriving DecidableEq, Repr

/-- A transaction as `UpdateBalance` consumes it. `isCoinBase` is
modelled from the spec (the `CTransaction::IsCoinBase` definition is not
in the given source): the code only branches on it. -/
structure CTransaction where
  vin : List CTxIn
  vout : List CTxOut
  isCoinBase : Bool
deriving DecidableEq, Repr

/-- The input loop of `CBalanceViewDB::UpdateBalance` (txdb.cpp lines
318-345): resolve each spent coin through the supplied UTXO view (the
`assert(coins)` and the `coins->vout[n]` access are embedded as `none`
when they would fail), derive the owning address, and — only when
`nHeight > 0` — read the previous balance, subtract the spent value,
update the cache, and persist, returning `false` the moment a persist
fails (`wfail` says which engine puts fail). The returned flag is
`true` when the loop ran to completion. -/
def UpdateBalanceInputs (s2a : Nat → String) (wfail : String → Int → Bool)
    (inputs : Nat → Option CCoins) (nHeight : Int) :
    List CTxIn → BalState → Option (Bool × BalState)
  | [], st => some (true, st)
  | txin :: rest, st =>
    match (inputs txin.prevout.hash).bind fun coins => coins.vout.get? txin.prevout.n with
    | none => none
    | some out =>
      let address := s2a out.scriptPubKey
      if 0 < nHeight then
        let val := GetBalance st address (nHeight - 1) - out.nValue
        let st2 := setCache address val st
        if wfail address nHeight then some (false, st2)
        else UpdateBalanceInputs s2a wfail inputs nHeight rest (writeDB address nHeight val st2)
      else UpdateBalanceInputs s2a wfail inputs nHeight rest st

/-- The output loop of `CBalanceViewDB::UpdateBalance` (txdb.cpp lines
348-370): skip outputs whose value is not strictly positive; for the
rest, derive the address, read the previous balance, add the output
value, update the cache, and persist, returning `false` the moment a
persist fails. -/
def UpdateBalanceOutputs (s2a : Nat → String) (wfail : String → Int → Bool)
    (nHeight : Int) : List CTxOut → BalState → Bool × BalState
  | [], st => (true, st)
  | out :: rest, st =>
    if out.nValue ≤ 0 then UpdateBalanceOutputs s2a wfail nHeight rest st
    else
      let address := s2a out.scriptPubKey
      let val := GetBalance st address (nHeight - 1) + out.nValue
      let st2 := setCache address val st
      if wfail address nHeight then (false, st2)
      else UpdateBalanceOutputs s2a wfail nHeight rest (writeDB address nHeight val st2)

/-- `CBalanceViewDB::UpdateBalance` (txdb.cpp lines 312-374): everything
is guarded by `tx.vout.size() > 0`; the input loop runs only for a
non-coinbase transaction with at least one input, and an early `false`
from it aborts the call before the output loop. `s2a` is the external
pure `ScriptPub2Addr` function. -/
def UpdateBalance (s2a : Nat → String) (wfail : String → Int → Bool)
    (tx : CTransaction) (inputs : Nat → Option CCoins) (nHeight : Int)
    (st : BalState) : Option (Bool × BalState) :=
  if tx.vout.length > 0 then
    if tx.isCoinBase = false ∧ tx.vin.length > 0 then
      match UpdateBalanceInputs s2a wfail inputs nHeight tx.vin st with
      | none => none
      | some (false, st2) => some (false, st2)
      | some (true, st2) => some (UpdateBalanceOutputs s2a wfail nHeight tx.vout st2)
    else some (UpdateBalanceOutputs s2a wfail nHeight tx.vout st)
  else some (true, st)

/-- Following the spec's words, for comparison with the source: the one
balance delta a spent input contributes — the spent output's owning
address and the negated spent value — or `none` when the UTXO view
cannot resolve the spend. -/
def inputItem (s2a : Nat → String) (inputs : Nat → Option CCoins)
    (txin : CTxIn) : Option (String × Int) :=
  match (inputs txin.prevout.hash).bind fun coins => coins.vout.get? txin.prevout.n with
  | none => none
  | some out => some (s2a out.scriptPubKey, -out.nValue)

/-- All input deltas, in input order; `none` if any input fails to
resolve. -/
def inputItems (s2a : Nat → String) (inputs : Nat → Option CCoins) :
    List CTxIn → Option (List (String × Int))
  | [] => some []
  | txin :: rest =>
    match inputItem s2a inputs txin with
    | none => none
    | some it =>
      match inputItems s2a inputs rest with
      | none => none
      | some its => some (it :: its)

/-- Following the spec's words: the balance deltas of the outputs —
every strictly positive output contributes its address and value,
outputs with value at most zero contribute nothing. -/
def outputItems (s2a : Nat → String) (vout : List CTxOut) : List (String × Int) :=
  vout.filterMap fun o =>
    if o.nValue ≤ 0 then none else some (s2a o.scriptPubKey, o.nValue)

/-- Following the spec's words: apply balance deltas one at a time —
for each, read the balance as of `nHeight - 1` on the current state,
add the delta, write the cache, then persist at `(address, nHeight)`;
a persist failure stops the run with `false`, after the cache write and
without the store write. -/
def runItems (wfail : String → Int → Bool) (nHeight : Int) :
    List (String × Int) → BalState → Bool × BalState
  | [], st => (true, st)
  | (addr, d) :: rest, st =>
    let val := GetBalance st addr (nHeight - 1) + d
    let st2 := setCache addr val st
    if wfail addr nHeight then (false, st2)
    else runItems wfail nHeight rest (writeDB addr nHeight val st2)

/-- Following the spec's words: the deltas one `UpdateBalance` call
applies — the input deltas (only when the transaction is non-coinbase
with inputs, and only at a strictly positive height) followed by the
positive-output deltas. Input resolution is demanded whenever the input
loop would run, mirroring the unconditional `assert(coins)`. -/
def txItems (s2a : Nat → String) (inputs : Nat → Option CCoins)
    (tx : CTransaction) (nHeight : Int) : Option (List (String × Int)) :=
  if tx.isCoinBase = false ∧ tx.vin.length > 0 then
    match inputItems s2a inputs tx.vin with
    | none => none
    | some its =>
      some ((if 0 < nHeight then its else []) ++ outputItems s2a tx.vout)
  else some (outputItems s2a tx.vout)

/-- A persist oracle under which every engine put succeeds. -/
def wfNone : String → Int → Bool := fun _ _ => false

/-- A concrete script-to-address function: script `1` belongs to
address `A`, every other script to address `B`. -/
def s2aAB : Nat → String := fun sc => if sc = 1 then "A" else "B"

/-- A concrete balance store for the monotonic-lookup example: address
`A` has recorded balances `100` at height `5` and `40` at height `9`,
and an empty cache. -/
def balExample : BalState :=
  ⟨[], [(("A", 5), EngineVal.val 100), (("A", 9), EngineVal.val 40)]⟩

/-- A concrete balance store whose height-`7` record for address `A`
reads back as an engine fault, with a good record of `50` at height
`3`. -/
def faultExample : BalState :=
  ⟨[], [(("A", 7), EngineVal.fault), (("A", 3), EngineVal.val 50)]⟩

/-- A concrete non-coinbase transaction with one input (spending output
`0` of transaction `7`) and no outputs at all. -/
def txNoOut : CTransaction := ⟨[⟨⟨7, 0⟩⟩], [], false⟩

/-- A UTXO view holding the coin `txNoOut` spends: one unspent output
of value `30` whose script belongs to address `A`. -/
def viewNoOut : Nat → Option CCoins :=
  fun h => if h = 7 then some ⟨[⟨30, 1⟩]⟩ else none

/-- A balance state where address `A` has `50` recorded at height `0`
and the cache is empty. -/
def stNoOut : BalState := ⟨[], [(("A", 0), EngineVal.val 50)]⟩

/-- The spec's end-to-end example transaction: spends a `30`-unit output
owned by address `A` (output `0` of transaction `9`) and creates a
`30`-unit output owned by address `B`. -/
def txAB : CTransaction := ⟨[⟨⟨9, 0⟩⟩], [⟨30, 2⟩], false⟩

/-- The UTXO view for `txAB`: the spent coin is a `30`-unit output with
address `A`'s script. -/
def viewAB : Nat → Option CCoins :=
  fun h => if h = 9 then some ⟨[⟨30, 1⟩]⟩ else none

/-- The balance state before `txAB` connects at height `10`: `A` has
`50` recorded at height `9`, `B` has no record, the cache is empty. -/
def stAB : BalState := ⟨[], [(("A", 9), EngineVal.val 50)]⟩

/-- The balance state `txAB` produces at height `10`: `A = 20` and
`B = 30` recorded at height `10`, both cached. -/
def stABFinal : BalState :=
  ⟨[("B", 30), ("A", 20)],
   [(("B", 10), EngineVal.val 30), (("A", 10), EngineVal.val 20),
    (("A", 9), EngineVal.val 50)]⟩

/-- A concrete transaction with no inputs and two positive outputs, one
to address `A` (value `10`) and one to address `B` (value `20`). -/
def txW : CTransaction := ⟨[], [⟨10, 1⟩, ⟨20, 2⟩], false⟩

/-- A persist oracle under which every engine put for address `B`
fails and every other put succeeds. -/
def wfB : String → Int → Bool := fun a _ => a == "B"

theorem batchWriteLoop_eq (m : List (Nat × CCoinsCacheEntry)) (acc : List BatchOp) :
    batchWriteLoop m acc = (acc ++ m.filterMap entryOp, []) := by
  induction m generalizing acc with
  | nil => simp [batchWriteLoop]
  | cons p rest ih =>
    obtain ⟨txid, e⟩ := p
    by_cases hd : e.dirty <;>
      simp [batchWriteLoop, entryOp, hd, ih, List.append_assoc]

theorem applyBatch_append (a b : List BatchOp) (st : Store) :
    applyBatch (a ++ b) st = applyBatch b (applyBatch a st) := by
  simp [applyBatch, List.foldl_append]

theorem applyOp_bare_of_tagged (st : Store) (op : BatchOp) (tag : Char) (sfx : Nat)
    (h : op = BatchOp.erase (DBKey.tagged tag sfx) ∨
         ∃ v, op = BatchOp.write (DBKey.tagged tag sfx) v) (t : Char) :
    applyOp st op (DBKey.bare t) = st (DBKey.bare t) := by
  rcases h with h | ⟨v, h⟩ <;> subst h <;> simp [applyOp]

/-- Every operation the coins loop emits targets a `'c'`-tagged key. -/
theorem entryOp_key (p : Nat × CCoinsCacheEntry) (op : BatchOp)
    (h : entryOp p = some op) :
    op = BatchOp.erase (DBKey.tagged 'c' p.1) ∨
      ∃ v, op = BatchOp.write (DBKey.tagged 'c' p.1) v := by
  unfold entryOp at h
  by_cases hd : p.2.dirty
  · by_cases hp : p.2.coins.IsPruned
    · left; simp [hd, hp] at h; exact h.symm
    · right; exact ⟨DBVal.coinsV p.2.coins, by simp [hd, hp] at h; exact h.symm⟩
  · simp [hd] at h

theorem applyBatch_coins_preserves_bare (m : List (Nat × CCoinsCacheEntry))
    (st : Store) (t : Char) :
    applyBatch (m.filterMap entryOp) st (DBKey.bare t) = st (DBKey.bare t) := by
  induction m generalizing st with
  | nil => simp [applyBatch]
  | cons p rest ih =>
    cases hop : entryOp p with
    | none => simpa [applyBatch, hop] using ih st
    | some op =>
      have hk := entryOp_key p op hop
      simp only [List.filterMap_cons, hop, applyBatch, List.foldl_cons]
      rw [show List.foldl applyOp (applyOp st op) (rest.filterMap entryOp) =
            applyBatch (rest.filterMap entryOp) (applyOp st op) from rfl, ih]
      exact applyOp_bare_of_tagged st op 'c' p.1 hk t

/-- Claim C1: for every coins diff and best-block hash, the batch built
by `BatchWrite` holds exactly one delete for each dirty entry whose
coins record is pruned, one upsert for each dirty entry whose record is
not pruned, and nothing for non-dirty entries (`entryOp` states the
spec's per-entry rule), followed only by the conditional best-block
pointer write; and the in-memory diff mapping comes back empty whether
the commit succeeds or fails. -/
theorem C1_batchWrite_builds_batch_and_drains_map
    (m : List (Nat × CCoinsCacheEntry)) (hashBlock : Nat) (commitOk : Bool) :
    (BatchWrite m hashBlock commitOk).2.1 =
      m.filterMap entryOp ++
        (if hashBlock ≠ 0 then
          [BatchOp.write (DBKey.bare 'B') (DBVal.hashV hashBlock)]
         else []) ∧
    (BatchWrite m hashBlock commitOk).2.2 = [] ∧
    (BatchWrite m hashBlock commitOk).1 = commitOk := by
  unfold BatchWrite
  rw [batchWriteLoop_eq]
  by_cases hb : hashBlock ≠ 0 <;> simp [hb]

/-- Claim C5: the best-block pointer reads as the zero hash before any
flush committed it; a successful flush with a non-null hash makes
`GetBestBlock` return that hash; a successful flush with the null hash
leaves `GetBestBlock` returning what it returned before (the pointer
write is skipped, not zeroed). -/
theorem C5_getBestBlock_after_flush
    (m : List (Nat × CCoinsCacheEntry)) (st : Store) (hb : Nat) :
    GetBestBlock emptyStore = 0 ∧
    (hb ≠ 0 → GetBestBlock (flushStore m hb st) = hb) ∧
    GetBestBlock (flushStore m 0 st) = GetBestBlock st := by
  refine ⟨rfl, ?_, ?_⟩
  · intro hbne
    unfold flushStore BatchWrite
    rw [batchWriteLoop_eq]
    simp only [hbne, ne_eq, not_false_eq_true, if_true]
    rw [applyBatch_append]
    unfold GetBestBlock
    simp [applyBatch, applyOp]
  · unfold flushStore BatchWrite
    rw [batchWriteLoop_eq]
    simp only [ne_eq, not_true_eq_false, if_false, List.nil_append]
    unfold GetBestBlock
    rw [applyBatch_coins_preserves_bare]

/-- Concrete run of claim C5's theorem: flushing hash `5` into the empty
store then flushing with the null hash leaves the pointer at `5`. -/
theorem C5_getBestBlock_after_flush_witness :
    GetBestBlock emptyStore = 0 ∧
    GetBestBlock (flushStore [] 5 emptyStore) = 5 ∧
    GetBestBlock (flushStore [] 0 (flushStore [] 5 emptyStore)) = 5 := by
  refine ⟨(C5_getBestBlock_after_flush [] emptyStore 5).1,
    (C5_getBestBlock_after_flush [] emptyStore 5).2.1 (by decide), ?_⟩
  rw [(C5_getBestBlock_after_flush [] (flushStore [] 5 emptyStore) 0).2.2]
  exact (C5_getBestBlock_after_flush [] emptyStore 5).2.1 (by decide)

theorem insertBlockIndex_keeps (s : BlockMap) (k h : Nat) (n : CBlockIndex)
    (hs : s h = some n) : insertBlockIndex s k h = some n := by
  unfold insertBlockIndex
  by_cases hk : (s k).isSome
  · rw [if_pos hk]; exact hs
  · rw [if_neg hk]
    unfold setNode
    by_cases he : h = k
    · subst he; rw [hs] at hk; simp at hk
    · simp [he, hs]

theorem insertBlockIndex_self_isSome (s : BlockMap) (k : Nat) :
    ((insertBlockIndex s k) k).isSome := by
  unfold insertBlockIndex
  by_cases hk : (s k).isSome
  · rw [if_pos hk]; exact hk
  · rw [if_neg hk]; simp [setNode]

theorem insertBlockIndex_isSome (s : BlockMap) (k h : Nat)
    (hs : (s h).isSome) : ((insertBlockIndex s k) h).isSome := by
  unfold insertBlockIndex
  by_cases hk : (s k).isSome
  · rw [if_pos hk]; exact hs
  · rw [if_neg hk]
    unfold setNode
    by_cases he : h = k <;> simp [he, hs]

theorem loadStep_keeps (s : BlockMap) (d : CDiskBlockIndex) (h : Nat)
    (n : CBlockIndex) (hne : d.blockHash ≠ h) (hs : s h = some n) :
    loadStep s d h = some n := by
  show (if h = d.blockHash then some (nodeOfDisk d)
        else insertBlockIndex (insertBlockIndex s d.blockHash) d.hashPrev h) = some n
  rw [if_neg (fun he => hne he.symm)]
  exact insertBlockIndex_keeps _ _ _ _ (insertBlockIndex_keeps _ _ _ _ hs)

theorem loadStep_isSome (s : BlockMap) (d : CDiskBlockIndex) (h : Nat)
    (hs : (s h).isSome) : ((loadStep s d) h).isSome := by
  show (if h = d.blockHash then some (nodeOfDisk d)
        else insertBlockIndex (insertBlockIndex s d.blockHash) d.hashPrev h).isSome
  by_cases he : h = d.blockHash
  · simp [he]
  · rw [if_neg he]
    exact insertBlockIndex_isSome _ _ _ (insertBlockIndex_isSome _ _ _ hs)

theorem loadStep_own (s : BlockMap) (d : CDiskBlockIndex) :
    loadStep s d d.blockHash = some (nodeOfDisk d) := by
  show (if d.blockHash = d.blockHash then some (nodeOfDisk d)
        else insertBlockIndex (insertBlockIndex s d.blockHash) d.hashPrev d.blockHash) =
      some (nodeOfDisk d)
  simp

theorem loadStep_prev_isSome (s : BlockMap) (d : CDiskBlockIndex) :
    ((loadStep s d) d.hashPrev).isSome := by
  show (if d.hashPrev = d.blockHash then some (nodeOfDisk d)
        else insertBlockIndex (insertBlockIndex s d.blockHash) d.hashPrev d.hashPrev).isSome
  by_cases he : d.hashPrev = d.blockHash
  · simp [he]
  · rw [if_neg he]
    exact insertBlockIndex_self_isSome _ _

theorem loadGuts_recEntries (l : List CDiskBlockIndex) (s : BlockMap) :
    LoadBlockIndexGuts (l.map recEntry) s = (true, l.foldl loadStep s) := by
  induction l generalizing s with
  | nil => rfl
  | cons d rest ih => simp [LoadBlockIndexGuts, recEntry, ih]

theorem foldl_loadStep_keeps (l : List CDiskBlockIndex) (s : BlockMap)
    (h : Nat) (n : CBlockIndex) (hne : ∀ d ∈ l, d.blockHash ≠ h)
    (hs : s h = some n) : l.foldl loadStep s h = some n := by
  induction l generalizing s with
  | nil => exact hs
  | cons e rest ih =>
    exact ih (loadStep s e) (fun d hd => hne d (List.mem_cons_of_mem e hd))
      (loadStep_keeps s e h n (hne e (List.mem_cons_self e rest)) hs)

theorem foldl_loadStep_isSome (l : List CDiskBlockIndex) (s : BlockMap)
    (h : Nat) (hs : (s h).isSome) : ((l.foldl loadStep s) h).isSome := by
  induction l generalizing s with
  | nil => exact hs
  | cons e rest ih => exact ih (loadStep s e) (loadStep_isSome s e h hs)

theorem foldl_loadStep_mem (l : List CDiskBlockIndex) (s : BlockMap)
    (hnd : (l.map CDiskBlockIndex.blockHash).Nodup) (d : CDiskBlockIndex)
    (hd : d ∈ l) : l.foldl loadStep s d.blockHash = some (nodeOfDisk d) := by
  induction l generalizing s with
  | nil => cases hd
  | cons e rest ih =>
    rw [List.map_cons, List.nodup_cons] at hnd
    rcases List.mem_cons.mp hd with he | hm
    · subst he
      refine foldl_loadStep_keeps rest (loadStep s d) d.blockHash _ ?_ (loadStep_own s d)
      intro x hx hcontra
      exact hnd.1 (hcontra ▸ List.mem_map_of_mem CDiskBlockIndex.blockHash hx)
    · exact ih (loadStep s e) hnd.2 hm

theorem foldl_loadStep_prev_isSome (l : List CDiskBlockIndex) (s : BlockMap)
    (d : CDiskBlockIndex) (hd : d ∈ l) :
    ((l.foldl loadStep s) d.hashPrev).isSome := by
  induction l generalizing s with
  | nil => cases hd
  | cons e rest ih =>
    rcases List.mem_cons.mp hd with he | hm
    · subst he
      exact foldl_loadStep_isSome rest (loadStep s d) d.hashPrev
        (loadStep_prev_isSome s d)
    · exact ih (loadStep s e) hm

/-- Claim C2: for records forming a set (pairwise-distinct hashes),
loading them in any enumeration order via the idempotent get-or-create
`insertBlockIndex` succeeds and leaves, for every record, the node for
that record's hash holding exactly the stored scalar fields with its
previous-link naming the stored previous hash (whose node exists in the
collection); the outcome at each record's hash is literally the same
for every permutation of the enumeration, including child-before-parent
orders. -/
theorem C2_loadBlockIndexGuts_reconstruction (l : List CDiskBlockIndex)
    (hnd : (l.map CDiskBlockIndex.blockHash).Nodup) :
    (LoadBlockIndexGuts (l.map recEntry) emptyBlockMap).1 = true ∧
    ∀ d ∈ l,
      (LoadBlockIndexGuts (l.map recEntry) emptyBlockMap).2 d.blockHash =
          some (nodeOfDisk d) ∧
        ((LoadBlockIndexGuts (l.map recEntry) emptyBlockMap).2 d.hashPrev).isSome ∧
        ∀ l2, l.Perm l2 →
          (LoadBlockIndexGuts (l2.map recEntry) emptyBlockMap).2 d.blockHash =
            some (nodeOfDisk d) := by
  rw [loadGuts_recEntries]
  refine ⟨rfl, fun d hd => ⟨?_, ?_, fun l2 hp => ?_⟩⟩
  · exact foldl_loadStep_mem l emptyBlockMap hnd d hd
  · exact foldl_loadStep_prev_isSome l emptyBlockMap d hd
  · rw [loadGuts_recEntries]
    exact foldl_loadStep_mem l2 emptyBlockMap
      ((hp.map CDiskBlockIndex.blockHash).nodup_iff.mp hnd) d (hp.mem_iff.mp hd)

/-- Concrete run of claim C2's theorem on a two-node tree enumerated
child-before-parent: both nodes come out fully populated and correctly
linked, and the parent-before-child enumeration yields the same nodes. -/
theorem C2_loadBlockIndexGuts_reconstruction_witness :
    (LoadBlockIndexGuts ([dChild, dGenesis].map recEntry) emptyBlockMap).1 = true ∧
    (LoadBlockIndexGuts ([dChild, dGenesis].map recEntry) emptyBlockMap).2
        dChild.blockHash = some (nodeOfDisk dChild) ∧
    (LoadBlockIndexGuts ([dChild, dGenesis].map recEntry) emptyBlockMap).2
        dGenesis.blockHash = some (nodeOfDisk dGenesis) ∧
    (LoadBlockIndexGuts ([dGenesis, dChild].map recEntry) emptyBlockMap).2
        dChild.blockHash = some (nodeOfDisk dChild) := by
  have h := C2_loadBlockIndexGuts_reconstruction [dChild, dGenesis] (by decide)
  refine ⟨h.1, (h.2 dChild (by decide)).1, (h.2 dGenesis (by decide)).1, ?_⟩
  exact (h.2 dChild (by decide)).2.2 [dGenesis, dChild] (List.Perm.swap dGenesis dChild [])

theorem loadGuts_good_append (good tail : List CursorEntry) (s : BlockMap)
    (hgood : ∀ e ∈ good, e.keyTag = 'b' ∧ e.value.isSome) :
    LoadBlockIndexGuts (good ++ tail) s = LoadBlockIndexGuts tail (goodRun good s) := by
  induction good generalizing s with
  | nil => rfl
  | cons e rest ih =>
    obtain ⟨htag, hval⟩ := hgood e (List.mem_cons_self e rest)
    obtain ⟨d, hd⟩ := Option.isSome_iff_exists.mp hval
    simp only [List.cons_append, LoadBlockIndexGuts, htag, if_true, hd, goodRun,
      List.foldl_cons]
    exact ih (loadStep s d) (fun x hx => hgood x (List.mem_cons_of_mem e hx))

/-- Claim C6: a block-index-tagged cursor entry whose value fails to
decode makes `LoadBlockIndexGuts` return failure at once — the entries
after it are never processed and the bad record is not skipped — while
a key outside the block-index tag, or end-of-store, terminates the scan
with success. -/
theorem C6_load_decode_failure_is_fatal (good : List CursorEntry)
    (bad : CursorEntry) (rest : List CursorEntry) (s : BlockMap)
    (hgood : ∀ e ∈ good, e.keyTag = 'b' ∧ e.value.isSome)
    (hbadTag : bad.keyTag = 'b') (hbadVal : bad.value = none) :
    (LoadBlockIndexGuts (good ++ bad :: rest) s).1 = false ∧
    LoadBlockIndexGuts (good ++ bad :: rest) s =
      LoadBlockIndexGuts (good ++ [bad]) s ∧
    (∀ e rest2 t, e.keyTag ≠ 'b' → LoadBlockIndexGuts (e :: rest2) t = (true, t)) ∧
    (∀ t, LoadBlockIndexGuts [] t = (true, t)) := by
  have hmain : LoadBlockIndexGuts (bad :: rest) (goodRun good s) =
      (false, goodRun good s) := by
    simp [LoadBlockIndexGuts, hbadTag, hbadVal]
  have hone : LoadBlockIndexGuts [bad] (goodRun good s) =
      (false, goodRun good s) := by
    simp [LoadBlockIndexGuts, hbadTag, hbadVal]
  refine ⟨?_, ?_, fun e rest2 t hne => by simp [LoadBlockIndexGuts, hne],
    fun t => rfl⟩
  · rw [loadGuts_good_append good (bad :: rest) s hgood, hmain]
  · rw [loadGuts_good_append good (bad :: rest) s hgood,
      loadGuts_good_append good [bad] s hgood, hmain, hone]

/-- Concrete run of claim C6's theorem: one decodable record followed by
an in-tag record that fails to decode aborts the load with failure, and
a cursor entry outside the tag stops it with success. -/
theorem C6_load_decode_failure_is_fatal_witness :
    (LoadBlockIndexGuts [recEntry dGenesis, ⟨'b', 7, none⟩,
        recEntry dChild] emptyBlockMap).1 = false ∧
    LoadBlockIndexGuts [recEntry dGenesis, ⟨'b', 7, none⟩, recEntry dChild]
        emptyBlockMap =
      LoadBlockIndexGuts [recEntry dGenesis, ⟨'b', 7, none⟩] emptyBlockMap ∧
    LoadBlockIndexGuts [⟨'t', 7, none⟩] emptyBlockMap = (true, emptyBlockMap) := by
  have h := C6_load_decode_failure_is_fatal [recEntry dGenesis] ⟨'b', 7, none⟩
    [recEntry dChild] emptyBlockMap (by decide) (by decide) (by decide)
  exact ⟨h.1, h.2.1, h.2.2.1 ⟨'t', 7, none⟩ [] emptyBlockMap (by decide)⟩

/-- Claim C9: `ReadFlag` reports not-found — a distinct outcome, not a
false value — for a name that was never written, and reports found with
value false after `WriteFlag(name, false)`, so not-found and
stored-false are distinguishable. -/
theorem C9_readFlag_tri_state :
    (∀ (st : List (String × Char)) (name : String),
      lookupFlag st name = none → ReadFlag st name = none) ∧
    (∀ (st : List (String × Char)) (name : String),
      ReadFlag (WriteFlag st name false) name = some false) := by
  constructor
  · intro st name hmiss
    unfold ReadFlag
    rw [hmiss]
  · intro st name
    unfold ReadFlag WriteFlag lookupFlag
    simp

/-- Concrete run of claim C9's theorem on the flag name `x` and the
empty store. -/
theorem C9_readFlag_tri_state_witness :
    ReadFlag [] "x" = none ∧ ReadFlag (WriteFlag [] "x" false) "x" = some false :=
  ⟨C9_readFlag_tri_state.1 [] "x" rfl, C9_readFlag_tri_state.2 [] "x"⟩

theorem scanBal_ret (db : List ((String × Int) × EngineVal)) (addr : String)
    (n h0 : Nat) (v : Int) (hle : h0 ≤ n)
    (hv : ReadDB db addr (Int.ofNat h0) = some v)
    (habove : ∀ h2 : Nat, h0 < h2 → h2 ≤ n → ReadDB db addr (Int.ofNat h2) = none) :
    scanBal db addr n = v := by
  induction n with
  | zero =>
    have h00 : h0 = 0 := Nat.le_zero.mp hle
    subst h00
    unfold scanBal
    rw [show (0 : Int) = Int.ofNat 0 from rfl, hv]
  | succ n ih =>
    by_cases he : h0 = n + 1
    · subst he
      unfold scanBal
      rw [hv]
    · have hle2 : h0 ≤ n := by omega
      have hnone : ReadDB db addr (Int.ofNat (n + 1)) = none :=
        habove (n + 1) (by omega) (le_refl _)
      unfold scanBal
      rw [hnone]
      exact ih hle2 (fun h2 hgt hle3 => habove h2 hgt (by omega))

theorem scanBal_zero (db : List ((String × Int) × EngineVal)) (addr : String)
    (n : Nat) (hall : ∀ h2 : Nat, h2 ≤ n → ReadDB db addr (Int.ofNat h2) = none) :
    scanBal db addr n = 0 := by
  induction n with
  | zero =>
    unfold scanBal
    rw [show (0 : Int) = Int.ofNat 0 from rfl, hall 0 (le_refl _)]
  | succ n ih =>
    unfold scanBal
    rw [hall (n + 1) (le_refl _)]
    exact ih (fun h2 hle => hall h2 (by omega))

/-- Claim C4: `GetBalance` returns the cached amount immediately on a
cache hit, whatever the requested height; on a cache miss it returns
the amount recorded at the largest height at most `H` (scanning `H`
down to `0` inclusive), and `0` when no record exists anywhere in that
range; with records `100` at height `5` and `40` at height `9` and an
empty cache, `H = 7` yields `100`, `H = 4` yields `0`, `H = 9` yields
`40`. -/
theorem C4_getBalance_monotonic_lookup :
    (∀ (st : BalState) (addr : String) (H : Int) (v : Int),
      lookupCache st.cache addr = some v → GetBalance st addr H = v) ∧
    (∀ (st : BalState) (addr : String) (H : Int) (h0 : Nat) (v : Int),
      lookupCache st.cache addr = none → (h0 : Int) ≤ H →
      dbLookup st.db (addr, (h0 : Int)) = some (EngineVal.val v) →
      (∀ h2 : Nat, h0 < h2 → (h2 : Int) ≤ H →
        dbLookup st.db (addr, (h2 : Int)) = none) →
      GetBalance st addr H = v) ∧
    (∀ (st : BalState) (addr : String) (H : Int),
      lookupCache st.cache addr = none →
      (∀ h2 : Nat, (h2 : Int) ≤ H → dbLookup st.db (addr, (h2 : Int)) = none) →
      GetBalance st addr H = 0) ∧
    (GetBalance balExample "A" 7 = 100 ∧ GetBalance balExample "A" 4 = 0 ∧
      GetBalance balExample "A" 9 = 40) := by
  refine ⟨?_, ?_, ?_, by decide, by decide, by decide⟩
  · intro st addr H v hcache
    unfold GetBalance
    rw [hcache]
  · intro st addr H h0 v hcache hle hfound habove
    unfold GetBalance
    rw [hcache]
    have hH : ¬ H < 0 := by omega
    rw [if_neg hH]
    refine scanBal_ret st.db addr H.toNat h0 v (by omega) ?_ ?_
    · unfold ReadDB
      rw [show Int.ofNat h0 = (h0 : Int) from rfl, hfound]
    · intro h2 hgt hle2
      unfold ReadDB
      rw [show Int.ofNat h2 = (h2 : Int) from rfl, habove h2 hgt (by omega)]
  · intro st addr H hcache hnone
    unfold GetBalance
    rw [hcache]
    by_cases hH : H < 0
    · rw [if_pos hH]
    · rw [if_neg hH]
      refine scanBal_zero st.db addr H.toNat ?_
      intro h2 hle
      unfold ReadDB
      rw [show Int.ofNat h2 = (h2 : Int) from rfl, hnone h2 (by omega)]

/-- Concrete run of claim C4's theorem: the record-at-largest-height
case at `H = 7` over the `{5: 100, 9: 40}` store. -/
theorem C4_getBalance_monotonic_lookup_witness :
    GetBalance balExample "A" 7 = 100 := by
  refine C4_getBalance_monotonic_lookup.2.1 balExample "A" 7 5 100 rfl
    (by decide) (by decide) ?_
  intro h2 hgt hle
  have hub : h2 ≤ 7 := by omega
  interval_cases h2 <;> decide

/-- Counterexample to claim C8 as stated: with no cache entry, a fault
record at height `7` and a good record of `50` at height `3` for
address `A`, the height-`7` read reports an engine fault other than
not-found, yet `GetBalance("A", 7)` returns `50`, not a zero amount:
the faulting probe is skipped and the scan continues downward. -/
theorem C8_fault_mid_scan_counterexample :
    dbLookup faultExample.db ("A", 7) = some EngineVal.fault ∧
    lookupCache faultExample.cache "A" = none ∧
    GetBalance faultExample "A" 7 = 50 ∧ (50 : Int) ≠ 0 := by decide

/-- Claim C8 amended: a fault other than not-found makes the read
indistinguishable from not-found — the amount read is discarded and the
backward scan simply continues — so the fault is never surfaced as a
distinct outcome, and whenever every probe from `H` down to `0` faults
or finds nothing the caller gets a zero amount, indistinguishable from
an address that was never funded. -/
theorem C8_fault_collapsed_to_not_found :
    (∀ (db : List ((String × Int) × EngineVal)) (addr : String) (h : Int),
      dbLookup db (addr, h) = some EngineVal.fault → ReadDB db addr h = none) ∧
    (∀ (st : BalState) (addr : String) (H : Int),
      lookupCache st.cache addr = none →
      (∀ h2 : Nat, (h2 : Int) ≤ H → ReadDB st.db addr (h2 : Int) = none) →
      GetBalance st addr H = 0) := by
  constructor
  · intro db addr h hf
    unfold ReadDB
    rw [hf]
  · intro st addr H hcache hnone
    unfold GetBalance
    rw [hcache]
    by_cases hH : H < 0
    · rw [if_pos hH]
    · rw [if_neg hH]
      refine scanBal_zero st.db addr H.toNat ?_
      intro h2 hle
      rw [show Int.ofNat h2 = (h2 : Int) from rfl]
      exact hnone h2 (by omega)

/-- Concrete run of claim C8's amended theorem: the faulting read at
height `7` reports not-found, and a store whose only record for `A` is
a fault yields a zero balance. -/
theorem C8_fault_collapsed_to_not_found_witness :
    ReadDB faultExample.db "A" 7 = none ∧
    GetBalance (⟨[], [(("A", 1), EngineVal.fault)]⟩ : BalState) "A" 2 = 0 := by
  constructor
  · exact C8_fault_collapsed_to_not_found.1 faultExample.db "A" 7 (by decide)
  · refine C8_fault_collapsed_to_not_found.2
      (⟨[], [(("A", 1), EngineVal.fault)]⟩ : BalState) "A" 2 rfl ?_
    intro h2 hle
    have hub : h2 ≤ 2 := by omega
    interval_cases h2 <;> decide

theorem runItems_append (wfail : String → Int → Bool) (h : Int)
    (a b : List (String × Int)) (st : BalState) :
    runItems wfail h (a ++ b) st =
      (if (runItems wfail h a st).1 then runItems wfail h b (runItems wfail h a st).2
       else runItems wfail h a st) := by
  induction a generalizing st with
  | nil => simp [runItems]
  | cons i rest ih =>
    obtain ⟨addr, d⟩ := i
    simp only [List.cons_append, runItems]
    by_cases hw : wfail addr h
    · simp [hw]
    · simp [hw, ih]

theorem runItems_all_ok (wfail : String → Int → Bool) (h : Int)
    (a : List (String × Int)) (st : BalState)
    (hok : ∀ i ∈ a, wfail i.1 h = false) : (runItems wfail h a st).1 = true := by
  induction a generalizing st with
  | nil => rfl
  | cons i rest ih =>
    obtain ⟨addr, d⟩ := i
    have hw : wfail addr h = false := hok (addr, d) (List.mem_cons_self _ _)
    simp only [runItems, hw]
    simp only [Bool.false_eq_true, if_false]
    exact ih _ (fun j hj => hok j (List.mem_cons_of_mem _ hj))

theorem outputs_eq_runItems (s2a : Nat → String) (wfail : String → Int → Bool)
    (h : Int) (vout : List CTxOut) (st : BalState) :
    UpdateBalanceOutputs s2a wfail h vout st =
      runItems wfail h (outputItems s2a vout) st := by
  induction vout generalizing st with
  | nil => rfl
  | cons o rest ih =>
    by_cases hv : o.nValue ≤ 0
    · simp [UpdateBalanceOutputs, outputItems, hv, ih,
        show outputItems s2a rest = rest.filterMap _ from rfl]
    · by_cases hw : wfail (s2a o.scriptPubKey) h
      · simp [UpdateBalanceOutputs, outputItems, runItems, hv, hw]
      · simp [UpdateBalanceOutputs, outputItems, runItems, hv, hw, ih,
          show outputItems s2a rest = rest.filterMap _ from rfl]

theorem inputs_eq_runItems (s2a : Nat → String) (wfail : String → Int → Bool)
    (inputs : Nat → Option CCoins) (h : Int) (hpos : 0 < h) (vin : List CTxIn)
    (its : List (String × Int)) (st : BalState)
    (hits : inputItems s2a inputs vin = some its) :
    UpdateBalanceInputs s2a wfail inputs h vin st =
      some (runItems wfail h its st) := by
  induction vin generalizing st its with
  | nil =>
    unfold inputItems at hits
    injection hits with hits
    subst hits
    rfl
  | cons txin rest ih =>
    unfold inputItems inputItem at hits
    cases hres : (inputs txin.prevout.hash).bind
        fun coins => coins.vout.get? txin.prevout.n with
    | none => rw [hres] at hits; cases hits
    | some out =>
      rw [hres] at hits
      cases hrest : inputItems s2a inputs rest with
      | none => rw [hrest] at hits; cases hits
      | some its2 =>
        rw [hrest] at hits
        injection hits with hits
        subst hits
        unfold UpdateBalanceInputs
        rw [hres]
        simp only [hpos, if_true, runItems]
        rw [show GetBalance st (s2a out.scriptPubKey) (h - 1) - out.nValue =
              GetBalance st (s2a out.scriptPubKey) (h - 1) + -out.nValue from
            sub_eq_add_neg _ _]
        by_cases hw : wfail (s2a out.scriptPubKey) h
        · simp [hw]
        · simp only [hw, Bool.false_eq_true, if_false]
          exact ih its2 _ hrest

theorem inputs_skipped (s2a : Nat → String) (wfail : String → Int → Bool)
    (inputs : Nat → Option CCoins) (h : Int) (hneg : ¬ 0 < h) (vin : List CTxIn)
    (its : List (String × Int)) (st : BalState)
    (hits : inputItems s2a inputs vin = some its) :
    UpdateBalanceInputs s2a wfail inputs h vin st = some (true, st) := by
  induction vin generalizing its with
  | nil => rfl
  | cons txin rest ih =>
    unfold inputItems inputItem at hits
    cases hres : (inputs txin.prevout.hash).bind
        fun coins => coins.vout.get? txin.prevout.n with
    | none => rw [hres] at hits; cases hits
    | some out =>
      rw [hres] at hits
      cases hrest : inputItems s2a inputs rest with
      | none => rw [hrest] at hits; cases hits
      | some its2 =>
        unfold UpdateBalanceInputs
        rw [hres]
        simp only [hneg, if_false]
        exact ih its2 hrest

theorem updateBalance_runs_txItems (s2a : Nat → String)
    (wfail : String → Int → Bool) (tx : CTransaction)
    (inputs : Nat → Option CCoins) (h : Int) (st : BalState)
    (its : List (String × Int)) (hvout : tx.vout.length > 0)
    (hits : txItems s2a inputs tx h = some its) :
    UpdateBalance s2a wfail tx inputs h st = some (runItems wfail h its st) := by
  unfold txItems at hits
  unfold UpdateBalance
  rw [if_pos hvout]
  by_cases hguard : tx.isCoinBase = false ∧ tx.vin.length > 0
  · rw [if_pos hguard] at hits ⊢
    cases hin : inputItems s2a inputs tx.vin with
    | none => rw [hin] at hits; cases hits
    | some its0 =>
      rw [hin] at hits
      injection hits with hits
      subst hits
      by_cases hpos : 0 < h
      · rw [inputs_eq_runItems s2a wfail inputs h hpos tx.vin its0 st hin]
        rw [if_pos hpos, runItems_append]
        cases hr : runItems wfail h its0 st with
        | mk ok st2 =>
          cases ok with
          | true => simp [outputs_eq_runItems]
          | false => simp
      · rw [inputs_skipped s2a wfail inputs h hpos tx.vin its0 st hin]
        rw [if_neg hpos]
        simp [outputs_eq_runItems]
  · rw [if_neg hguard] at hits ⊢
    injection hits with hits
    subst hits
    rw [outputs_eq_runItems]

/-- Counterexample to claim C3 as stated: `txNoOut` is a non-coinbase
transaction at height `1` whose single input spends a resolvable
`30`-unit output owned by address `A` (balance `50` at height `0`), yet
because its output list is empty `UpdateBalance` returns success without
persisting any record at `("A", 1)` and without touching the cache — the
input causes no deduction at all. -/
theorem C3_empty_vout_counterexample :
    txNoOut.isCoinBase = false ∧ txNoOut.vin ≠ [] ∧
    viewNoOut 7 = some ⟨[⟨30, 1⟩]⟩ ∧ s2aAB 1 = "A" ∧
    GetBalance stNoOut "A" 0 = 50 ∧
    UpdateBalance s2aAB wfNone txNoOut viewNoOut 1 stNoOut = some (true, stNoOut) ∧
    dbLookup stNoOut.db ("A", 1) = none ∧
    lookupCache stNoOut.cache "A" = none := by decide

/-- Claim C3 amended: provided the transaction's output list is
non-empty and the height is strictly positive, `UpdateBalance` on a
non-coinbase transaction with inputs applies exactly the per-item rule
the spec states, sequentially (`runItems` is written from the spec's
words): each input makes the spent output's owning address receive the
balance read as of `h - 1` on the current state minus the spent value,
written to the cache and persisted at `(address, h)`; then each output
with strictly positive value adds its value the same way; outputs with
value at most zero cause no update, and a persist failure aborts after
the failing address's cache write. -/
theorem C3_updateBalance_per_item_effects (s2a : Nat → String)
    (wfail : String → Int → Bool) (tx : CTransaction)
    (inputs : Nat → Option CCoins) (h : Int) (st : BalState)
    (its : List (String × Int)) (hvout : tx.vout.length > 0)
    (hcb : tx.isCoinBase = false) (hvin : tx.vin.length > 0) (hpos : 0 < h)
    (hits : inputItems s2a inputs tx.vin = some its) :
    UpdateBalance s2a wfail tx inputs h st =
      some (runItems wfail h (its ++ outputItems s2a tx.vout) st) := by
  refine updateBalance_runs_txItems s2a wfail tx inputs h st _ hvout ?_
  unfold txItems
  rw [if_pos ⟨hcb, hvin⟩, hits]
  simp [hpos]

/-- Concrete run of claim C3's amended theorem: the spec's end-to-end
example — `txAB` spends `A`'s `30`-unit output and pays `30` to `B` at
height `10` with `A = 50` and `B = 0` at height `9` — leaves `A = 20`
and `B = 30` persisted at height `10` and served from the cache by
`GetBalance`. -/
theorem C3_updateBalance_per_item_effects_witness :
    UpdateBalance s2aAB wfNone txAB viewAB 10 stAB =
      some (runItems wfNone 10 ([("A", -30)] ++ outputItems s2aAB txAB.vout) stAB) ∧
    UpdateBalance s2aAB wfNone txAB viewAB 10 stAB = some (true, stABFinal) ∧
    dbLookup stABFinal.db ("A", 10) = some (EngineVal.val 20) ∧
    dbLookup stABFinal.db ("B", 10) = some (EngineVal.val 30) ∧
    GetBalance stABFinal "A" 10 = 20 ∧ GetBalance stABFinal "B" 10 = 30 := by
  refine ⟨C3_updateBalance_per_item_effects s2aAB wfNone txAB viewAB 10 stAB
    [("A", -30)] (by decide) (by decide) (by decide) (by decide) (by decide),
    by decide, by decide, by decide, by decide, by decide⟩

/-- Claim C7: when the persist for some address fails mid-call,
`UpdateBalance` returns failure having processed no later item — the
result is exactly the state after the earlier items (whose cache and
store writes all stand, un-reverted) plus the failing address's cache
write, with nothing persisted for the failing address. -/
theorem C7_updateBalance_persist_failure (s2a : Nat → String)
    (wfail : String → Int → Bool) (tx : CTransaction)
    (inputs : Nat → Option CCoins) (h : Int) (st : BalState)
    (its a : List (String × Int)) (b : String × Int) (c : List (String × Int))
    (hvout : tx.vout.length > 0)
    (hits : txItems s2a inputs tx h = some its)
    (hsplit : its = a ++ b :: c)
    (hok : ∀ i ∈ a, wfail i.1 h = false)
    (hfail : wfail b.1 h = true) :
    UpdateBalance s2a wfail tx inputs h st =
      some (false,
        setCache b.1 (GetBalance (runItems wfail h a st).2 b.1 (h - 1) + b.2)
          (runItems wfail h a st).2) ∧
    lookupCache
        (setCache b.1 (GetBalance (runItems wfail h a st).2 b.1 (h - 1) + b.2)
          (runItems wfail h a st).2).cache b.1 =
      some (GetBalance (runItems wfail h a st).2 b.1 (h - 1) + b.2) ∧
    (setCache b.1 (GetBalance (runItems wfail h a st).2 b.1 (h - 1) + b.2)
        (runItems wfail h a st).2).db =
      (runItems wfail h a st).2.db := by
  obtain ⟨baddr, bd⟩ := b
  refine ⟨?_, by simp [setCache, lookupCache], by simp [setCache]⟩
  rw [updateBalance_runs_txItems s2a wfail tx inputs h st its hvout hits, hsplit,
    runItems_append, if_pos (runItems_all_ok wfail h a st hok)]
  have hstep : runItems wfail h ((baddr, bd) :: c) (runItems wfail h a st).2 =
      (false,
        setCache baddr (GetBalance (runItems wfail h a st).2 baddr (h - 1) + bd)
          (runItems wfail h a st).2) := by
    simp only [runItems, hfail, if_true]
  rw [hstep]

/-- Concrete run of claim C7's theorem: `txW` pays `10` to `A` and `20`
to `B`, every put for `B` fails; the call returns failure with `A`'s
cache and store writes kept, `B`'s value cached but not persisted. -/
theorem C7_updateBalance_persist_failure_witness :
    UpdateBalance s2aAB wfB txW viewAB 3 (⟨[], []⟩ : BalState) =
      some (false, (⟨[("B", 20), ("A", 10)], [(("A", 3), EngineVal.val 10)]⟩ :
        BalState)) := by
  have h := (C7_updateBalance_persist_failure s2aAB wfB txW viewAB 3
    (⟨[], []⟩ : BalState) [("A", 10), ("B", 20)] [("A", 10)] ("B", 20) []
    (by decide) (by decide) rfl (by decide) (by decide)).1
  rw [h]
  decide

/-- Claim C10: a transaction with an empty output list makes
`UpdateBalance` succeed while leaving the cache and the store completely
untouched, whatever its inputs and height; and at height `0` the
input-side deductions are skipped entirely — the call behaves as the
output items alone. -/
theorem C10_updateBalance_frame (s2a : Nat → String)
    (wfail : String → Int → Bool) (tx : CTransaction)
    (inputs : Nat → Option CCoins) (h : Int) (st : BalState) :
    (tx.vout = [] → UpdateBalance s2a wfail tx inputs h st = some (true, st)) ∧
    (∀ its, txItems s2a inputs tx 0 = some its →
      UpdateBalance s2a wfail tx inputs 0 st =
        some (runItems wfail 0 (outputItems s2a tx.vout) st)) := by
  constructor
  · intro hv
    unfold UpdateBalance
    simp [hv]
  · intro its hits
    have hshape : its = outputItems s2a tx.vout := by
      unfold txItems at hits
      by_cases hguard : tx.isCoinBase = false ∧ tx.vin.length > 0
      · rw [if_pos hguard] at hits
        cases hin : inputItems s2a inputs tx.vin with
        | none => rw [hin] at hits; cases hits
        | some its0 =>
          rw [hin] at hits
          injection hits with hits
          simp at hits
          exact hits.symm
      · rw [if_neg hguard] at hits
        injection hits with hits
        exact hits.symm
    by_cases hvout : tx.vout.length > 0
    · rw [updateBalance_runs_txItems s2a wfail tx inputs 0 st its hvout hits, hshape]
    · have hv : tx.vout = [] := List.length_eq_zero.mp (by omega)
      unfold UpdateBalance
      simp [hv, outputItems, runItems]

/-- Concrete run of claim C10's theorem: the empty-output `txNoOut` at
height `5` changes nothing, and `txAB` at height `0` applies only its
output items. -/
theorem C10_updateBalance_frame_witness :
    UpdateBalance s2aAB wfNone txNoOut viewNoOut 5 stNoOut =
      some (true, stNoOut) ∧
    UpdateBalance s2aAB wfNone txAB viewAB 0 stAB =
      some (runItems wfNone 0 (outputItems s2aAB txAB.vout) stAB) :=
  ⟨(C10_updateBalance_frame s2aAB wfNone txNoOut viewNoOut 5 stNoOut).1 rfl,
   (C10_updateBalance_frame s2aAB wfNone txAB viewAB 0 stAB).2
     [("B", 30)] (by decide)⟩
